import Mathlib

/-!
Verification development for the welding-visit quote bot (`src/bot.py`).

The Python module keeps three pieces of mutable state:
* `data["customers"]` — a dict from customer-id strings to customer records
  (`name`, `ids`, `projects_sum`, `discount`, `visits`);
* `context.application.bot_data["calc_store"]` — a dict from user id to the
  active quote session (`{"session": token, "ts": timestamp}`) plus the
  job-queue timers named `calc_timeout_<uid>`;
* `context.user_data["admin_visit"]` — the admin wizard draft.

Python dicts are embedded as association lists whose update operation
removes any existing binding of the key first, so key-uniqueness is a
provable invariant rather than a typing assumption.  Python exceptions
(`KeyError`, `ValueError`) are embedded as `Option`/"no state change"
outcomes, as noted at each definition.
-/

/-! ### Association lists (embedding of Python dicts) -/

def alookup {κ β : Type} [DecidableEq κ] : List (κ × β) → κ → Option β
  | [], _ => none
  | p :: rest, k => if p.1 = k then some p.2 else alookup rest k

def aerase {κ β : Type} [DecidableEq κ] : List (κ × β) → κ → List (κ × β)
  | [], _ => []
  | p :: rest, k => if p.1 = k then aerase rest k else p :: aerase rest k

/-- Dict assignment `d[k] = v`: any binding of `k` is replaced. -/
def ainsert {κ β : Type} [DecidableEq κ] (l : List (κ × β)) (k : κ) (v : β) : List (κ × β) :=
  aerase l k ++ [(k, v)]

theorem alookup_aerase_self {κ β : Type} [DecidableEq κ] (l : List (κ × β)) (k : κ) :
    alookup (aerase l k) k = none := by
  induction l with
  | nil => rfl
  | cons p rest ih =>
    by_cases h : p.1 = k <;> simp [aerase, alookup, h, ih]

theorem alookup_aerase_ne {κ β : Type} [DecidableEq κ] (l : List (κ × β)) (k k' : κ)
    (h : k' ≠ k) : alookup (aerase l k) k' = alookup l k' := by
  have hk : ¬ k = k' := fun hc => h hc.symm
  induction l with
  | nil => rfl
  | cons p rest ih =>
    by_cases hp : p.1 = k
    · simp [aerase, alookup, hp, hk, ih]
    · by_cases hp' : p.1 = k' <;> simp [aerase, alookup, hp, hp', h, ih]

theorem alookup_ainsert_self {κ β : Type} [DecidableEq κ] (l : List (κ × β)) (k : κ) (v : β) :
    alookup (ainsert l k v) k = some v := by
  unfold ainsert
  induction l with
  | nil => simp [alookup]
  | cons p rest ih =>
    by_cases hp : p.1 = k <;> simp [aerase, alookup, hp, ih]

theorem alookup_ainsert_ne {κ β : Type} [DecidableEq κ] (l : List (κ × β)) (k k' : κ) (v : β)
    (h : k' ≠ k) : alookup (ainsert l k v) k' = alookup l k' := by
  unfold ainsert
  have hk : ¬ k = k' := fun hc => h hc.symm
  induction l with
  | nil => simp [alookup, hk]
  | cons p rest ih =>
    by_cases hp : p.1 = k
    · simp [aerase, alookup, hp, hk, ih]
    · by_cases hp' : p.1 = k' <;> simp [aerase, alookup, hp, hp', h, ih]

/-- Keys of an association list. -/
def akeys {κ β : Type} (l : List (κ × β)) : List κ := l.map Prod.fst

theorem mem_akeys_aerase {κ β : Type} [DecidableEq κ] (l : List (κ × β)) (k a : κ)
    (h : a ∈ akeys (aerase l k)) : a ∈ akeys l ∧ a ≠ k := by
  induction l with
  | nil => simp [aerase, akeys] at h
  | cons p rest ih =>
    by_cases hp : p.1 = k
    · have h' : a ∈ akeys (aerase rest k) := by simpa [aerase, hp] using h
      have := ih h'
      exact ⟨List.mem_cons_of_mem _ this.1, this.2⟩
    · have hres : akeys (aerase (p :: rest) k) = p.1 :: akeys (aerase rest k) := by
        simp [aerase, hp, akeys]
      rw [hres] at h
      rcases List.mem_cons.mp h with heq | hmem
      · exact ⟨by rw [heq]; exact List.mem_cons_self _ _, by rw [heq]; exact hp⟩
      · have := ih hmem
        exact ⟨List.mem_cons_of_mem _ this.1, this.2⟩

theorem akeys_nodup_aerase {κ β : Type} [DecidableEq κ] (l : List (κ × β)) (k : κ)
    (h : (akeys l).Nodup) : (akeys (aerase l k)).Nodup := by
  induction l with
  | nil => simp [aerase, akeys]
  | cons p rest ih =>
    simp only [akeys, List.map_cons, List.nodup_cons] at h
    by_cases hp : p.1 = k
    · simpa [aerase, hp, akeys] using ih h.2
    · have hres : akeys (aerase (p :: rest) k) = p.1 :: akeys (aerase rest k) := by
        simp [aerase, hp, akeys]
      rw [hres]
      refine List.Nodup.cons ?_ (ih h.2)
      intro hmem
      exact h.1 ((mem_akeys_aerase rest k p.1 hmem).1)

theorem akeys_nodup_ainsert {κ β : Type} [DecidableEq κ] (l : List (κ × β)) (k : κ) (v : β)
    (h : (akeys l).Nodup) : (akeys (ainsert l k v)).Nodup := by
  have herase := akeys_nodup_aerase l k h
  have hkeys : akeys (ainsert l k v) = akeys (aerase l k) ++ [k] := by
    simp [ainsert, akeys]
  rw [hkeys, List.nodup_append]
  refine ⟨herase, List.nodup_singleton k, ?_⟩
  intro a ha hb
  rcases List.mem_singleton.mp hb with rfl
  exact (mem_akeys_aerase l a a ha).2 rfl

theorem filter_key_length_le_one {κ β : Type} [DecidableEq κ] (l : List (κ × β)) (k : κ)
    (h : (akeys l).Nodup) : (l.filter (fun p => decide (p.1 = k))).length ≤ 1 := by
  induction l with
  | nil => simp
  | cons p rest ih =>
    simp only [akeys, List.map_cons, List.nodup_cons] at h
    by_cases hp : p.1 = k
    · have : rest.filter (fun p => decide (p.1 = k)) = [] := by
        rw [List.filter_eq_nil_iff]
        intro q hq hqk
        simp only [decide_eq_true_eq] at hqk
        exact h.1 (by rw [hp, ← hqk]; exact List.mem_map_of_mem Prod.fst hq)
      simp [hp, this]
    · simpa [hp] using ih h.2

/-! ### Decimal strings

The bot builds session tokens with `str(int(time.time() * 1000))` and
customer ids with `str(max_id + 1)`, and tests `cid.isdigit()` /
`int(cid)` when generating ids.  We embed Python's decimal printing and
parsing directly. -/

def digitChar : Nat → Char
  | 0 => '0' | 1 => '1' | 2 => '2' | 3 => '3' | 4 => '4'
  | 5 => '5' | 6 => '6' | 7 => '7' | 8 => '8' | _ => '9'

def isDigitChar (c : Char) : Bool := 48 ≤ c.toNat && c.toNat ≤ 57

/-- Digits of `n` in base 10, most significant first.  The fuel argument
only bounds the recursion; `fuel = n + 1` always suffices. -/
def natDigitsAux : Nat → Nat → List Char
  | _, 0 => []
  | n, fuel + 1 =>
    if n < 10 then [digitChar n]
    else natDigitsAux (n / 10) fuel ++ [digitChar (n % 10)]

/-- Python `str(n)` for a natural number. -/
def natToDecimal (n : Nat) : String := String.mk (natDigitsAux n (n + 1))

/-- Value of a digit list, most significant first (Python `int(s)`). -/
def digitsToNat (l : List Char) : Nat := l.foldl (fun acc c => acc * 10 + (c.toNat - 48)) 0

/-- Python `s.isdigit()` (restricted to ASCII digits, which is all the
bot ever generates). -/
def strIsDigits (s : String) : Bool := decide (s.data ≠ []) && s.data.all isDigitChar

/-- Python `int(s)` on a digit string. -/
def strToNat (s : String) : Nat := digitsToNat s.data

theorem digitChar_toNat (m : Nat) (h : m < 10) : (digitChar m).toNat = 48 + m := by
  interval_cases m <;> rfl

theorem isDigitChar_digitChar (m : Nat) (h : m < 10) : isDigitChar (digitChar m) = true := by
  interval_cases m <;> rfl

theorem digitsToNat_append (l : List Char) (c : Char) :
    digitsToNat (l ++ [c]) = digitsToNat l * 10 + (c.toNat - 48) := by
  simp [digitsToNat, List.foldl_append]

theorem natDigitsAux_spec (fuel : Nat) : ∀ n, n < fuel →
    natDigitsAux n fuel ≠ [] ∧ (natDigitsAux n fuel).all isDigitChar = true ∧
      digitsToNat (natDigitsAux n fuel) = n := by
  induction fuel with
  | zero => intro n h; omega
  | succ f ih =>
    intro n hn
    by_cases h10 : n < 10
    · refine ⟨by simp [natDigitsAux, h10], ?_, ?_⟩
      · simp [natDigitsAux, h10, List.all_cons, isDigitChar_digitChar n h10]
      · simp [natDigitsAux, h10, digitsToNat, digitChar_toNat n h10]
    · have hpos : 0 < n := by omega
      have hdiv : n / 10 < n := Nat.div_lt_self hpos (by norm_num)
      have hf : n / 10 < f := by omega
      obtain ⟨hne, hall, hval⟩ := ih (n / 10) hf
      have hmod : n % 10 < 10 := Nat.mod_lt n (by norm_num)
      refine ⟨by simp [natDigitsAux, h10], ?_, ?_⟩
      · simp [natDigitsAux, h10, List.all_append, hall, List.all_cons,
          isDigitChar_digitChar _ hmod]
      · rw [show natDigitsAux n (f + 1) = natDigitsAux (n / 10) f ++ [digitChar (n % 10)] by
            simp [natDigitsAux, h10]]
        rw [digitsToNat_append, hval, digitChar_toNat _ hmod]
        omega

theorem natToDecimal_data (n : Nat) : (natToDecimal n).data = natDigitsAux n (n + 1) := rfl

theorem natToDecimal_ne_empty (n : Nat) : natToDecimal n ≠ "" := by
  intro h
  have hd : (natToDecimal n).data = [] := by rw [h]
  exact (natDigitsAux_spec (n + 1) n (Nat.lt_succ_self n)).1 (by rw [← natToDecimal_data]; exact hd)

theorem strIsDigits_natToDecimal (n : Nat) : strIsDigits (natToDecimal n) = true := by
  obtain ⟨hne, hall, _⟩ := natDigitsAux_spec (n + 1) n (Nat.lt_succ_self n)
  simp [strIsDigits, natToDecimal_data, hne, hall]

theorem strToNat_natToDecimal (n : Nat) : strToNat (natToDecimal n) = n := by
  exact (natDigitsAux_spec (n + 1) n (Nat.lt_succ_self n)).2.2

theorem natToDecimal_injective {m n : Nat} (h : natToDecimal m = natToDecimal n) : m = n := by
  have := strToNat_natToDecimal m
  rw [h, strToNat_natToDecimal] at this
  omega

/-! ### Tariff tables and price lookup (`TARIFFS_DISCOUNT`, `TARIFFS_STANDARD`,
`calc_price`, `classify_kind` in `src/bot.py`) -/

def TARIFFS_DISCOUNT : List (String × List (String × Nat)) :=
  [("free", [("4", 20000), ("8", 23000), ("night_4", 27000), ("night_8", 30000)]),
   ("exact", [("4", 22000), ("8", 25000), ("night_4", 27000), ("night_8", 30000)]),
   ("urgent_tomorrow", [("4", 25000), ("8", 27000), ("night_4", 27000), ("night_8", 30000)]),
   ("urgent_today", [("4", 27000), ("8", 30000), ("night_4", 27000), ("night_8", 30000)]),
   ("holiday", [("4", 35000), ("8", 35000), ("night_4", 35000), ("night_8", 35000)])]

def TARIFFS_STANDARD : List (String × List (String × Nat)) :=
  [("free", [("4", 22000), ("8", 25000), ("night_4", 35000), ("night_8", 40000)]),
   ("exact", [("4", 25000), ("8", 30000), ("night_4", 35000), ("night_8", 40000)]),
   ("urgent_tomorrow", [("4", 30000), ("8", 35000), ("night_4", 35000), ("night_8", 40000)]),
   ("urgent_today", [("4", 35000), ("8", 40000), ("night_4", 35000), ("night_8", 40000)]),
   ("holiday", [("4", 40000), ("8", 45000), ("night_4", 40000), ("night_8", 45000)])]

/-- Two-level dict lookup `table[kind][duration]`. -/
def tariffLookup (table : List (String × List (String × Nat))) (kind duration : String) :
    Option Nat :=
  (alookup table kind).bind (fun row => alookup row duration)

/-- `calc_price(kind, duration, discount)`.  A `KeyError` on an unknown
`(kind, duration)` pair is embedded as `none`. -/
def calc_price (kind duration : String) (discount : Bool) : Option Nat :=
  tariffLookup (if discount then TARIFFS_DISCOUNT else TARIFFS_STANDARD) kind duration

/-- The five kind keys of the tariff tables. -/
def KINDS : List String := ["free", "exact", "urgent_tomorrow", "urgent_today", "holiday"]

/-- The four duration keys of the tariff tables. -/
def DURATIONS : List String := ["4", "8", "night_4", "night_8"]

/-- `classify_kind(selected_date)`.  Calendar dates are embedded as day
ordinals (`today + 1` is tomorrow); `now_msk()` is made explicit as the
pair `(today, hour)`, and the `holidays.Russia()` table as a predicate. -/
def classify_kind (holiday : Nat → Bool) (selected_date today hour : Nat) : String :=
  if holiday selected_date then "holiday"
  else if selected_date = today then "urgent_today"
  else if selected_date = today + 1 ∧ 17 ≤ hour then "urgent_tomorrow"
  else "exact"

/-! ### Customer ledger (`data["customers"]`) -/

structure Visit where
  date : String
  kind : String
  duration : String
  price : Nat
  tariff_type : String
deriving DecidableEq, Repr

structure Customer where
  name : String
  ids : List String
  projects_sum : Int
  discount : Bool
  visits : List Visit
deriving DecidableEq, Repr

abbrev Ledger := List (String × Customer)

/-- `recalc_discount(cust)`. -/
def recalc_discount (cust : Customer) : Customer :=
  { cust with discount := decide (4 ≤ cust.visits.length) || decide ((60000 : Int) ≤ cust.projects_sum) }

/-- The mutating per-record ledger operations of the admin surface:
visit append (`admin_confirm_visit`), removal by index
(`admin_delete_visit`), bulk clear (`admin_delete_all`, `/clearvisits`),
and the project-sum operations (`admin_add_amount` / `/addsum`,
`admin_set_sum_handler` / `/setsum`, `admin_reset_sum`). -/
inductive LedgerOp where
  | appendVisit (v : Visit)
  | removeVisit (i : Nat)
  | clearVisits
  | addSum (amt : Int)
  | setSum (amt : Int)
  | resetSum
deriving DecidableEq, Repr

def applyLedgerOp (cust : Customer) : LedgerOp → Customer
  | .appendVisit v => recalc_discount { cust with visits := cust.visits ++ [v] }
  | .removeVisit i =>
    if i < cust.visits.length then
      recalc_discount { cust with visits := cust.visits.eraseIdx i }
    else
      cust
  | .clearVisits => recalc_discount { cust with visits := [] }
  | .addSum amt => recalc_discount { cust with projects_sum := cust.projects_sum + amt }
  | .setSum amt => recalc_discount { cust with projects_sum := amt }
  | .resetSum => recalc_discount { cust with projects_sum := 0 }

/-- The record `ensure_customer` builds for a new customer. -/
def freshCustomer (name : String) : Customer :=
  { name := name, ids := [], projects_sum := 0, discount := false, visits := [] }

/-- The numeric values of the digit-string customer ids
(`int(cid) for cid in data["customers"].keys() if cid.isdigit()`). -/
def numericIds (customers : Ledger) : List Nat :=
  (akeys customers).filterMap (fun cid => if strIsDigits cid then some (strToNat cid) else none)

/-- `generate_customer_id()`.  On a nonempty ledger whose keys contain no
digit string, Python's `max()` raises `ValueError`; that outcome is
embedded as `none`. -/
def generate_customer_id (customers : Ledger) : Option String :=
  if customers.isEmpty then some "1"
  else
    match numericIds customers with
    | [] => none
    | n :: rest => some (natToDecimal ((n :: rest).foldl Nat.max 0 + 1))

/-- `ensure_customer(name)`: generates an id and inserts a fresh record
under it unless the id is already taken. -/
def ensure_customer (customers : Ledger) (name : String) : Option (String × Ledger) :=
  (generate_customer_id customers).map (fun cid =>
    match alookup customers cid with
    | some _ => (cid, customers)
    | none => (cid, customers ++ [(cid, freshCustomer name)]))

/-- `find_customer_by_userid(uid)`: first record whose `ids` list contains
`str(uid)`. -/
def find_customer_by_userid (customers : Ledger) (uid : Nat) : Option (String × Customer) :=
  match customers with
  | [] => none
  | (cid, c) :: rest =>
    if natToDecimal uid ∈ c.ids then some (cid, c) else find_customer_by_userid rest uid

/-- The shared link logic of `admin_quick_link`, `/register`, `/link` and
`admin_link_user_handler`: if the target exists, first remove the actor id
from every record's `ids` (Python `list.remove`, first occurrence), then
append it to the target unless already present. -/
def linkActor (customers : Ledger) (cid uid : String) : Ledger :=
  match alookup customers cid with
  | none => customers
  | some _ =>
    let customers := customers.map (fun p =>
      (p.1, { p.2 with ids := if uid ∈ p.2.ids then p.2.ids.erase uid else p.2.ids }))
    customers.map (fun p =>
      if p.1 = cid then
        (p.1, { p.2 with ids := if uid ∈ p.2.ids then p.2.ids else p.2.ids ++ [uid] })
      else p)

/-! ### Quote session manager (`calc_store` + `calc_timeout_<uid>` jobs)

`start_or_restart_calc_session`, `touch_calc_session`,
`reset_calc_session`, `cancel_calc_timeout`, `_calc_timeout_job`,
`get_active_calc_session`, `is_session_valid` in `src/bot.py`.
Timestamps are milliseconds; a pending job is the pair
`(user_id, fire_time)`. -/

structure Session where
  session : String
  ts : Nat
deriving DecidableEq, Repr

structure CalcState where
  store : List (Nat × Session)
  jobs : List (Nat × Nat)
deriving DecidableEq, Repr

def CALC_TIMEOUT_MINUTES : Nat := 15

/-- The delay `CALC_TIMEOUT_MINUTES * 60` passed to `run_once`, on the
millisecond axis of our timestamps. -/
def calcTimeoutDelay : Nat := CALC_TIMEOUT_MINUTES * 60 * 1000

/-- `cancel_calc_timeout`: removes every job named `calc_timeout_<uid>`. -/
def cancel_calc_timeout (st : CalcState) (user_id : Nat) : CalcState :=
  { st with jobs := st.jobs.filter (fun j => decide (j.1 ≠ user_id)) }

/-- `reset_calc_session`: cancel the timer, then `store.pop(user_id, None)`. -/
def reset_calc_session (st : CalcState) (user_id : Nat) : CalcState :=
  let st := cancel_calc_timeout st user_id
  { st with store := aerase st.store user_id }

/-- `start_or_restart_calc_session`: reset, then store a fresh session
whose token is `str(int(time.time() * 1000))`, then schedule the timeout
job.  Returns the new token. -/
def start_or_restart_calc_session (st : CalcState) (user_id nowMs : Nat) : CalcState × String :=
  let st := reset_calc_session st user_id
  let session_id := natToDecimal nowMs
  let st := { st with store := ainsert st.store user_id ⟨session_id, nowMs⟩ }
  let st := { st with jobs := st.jobs ++ [(user_id, nowMs + calcTimeoutDelay)] }
  (st, session_id)

/-- `touch_calc_session`: no-op when no session exists; otherwise update
`ts` and cancel-then-reschedule the timeout job. -/
def touch_calc_session (st : CalcState) (user_id nowMs : Nat) : CalcState :=
  match alookup st.store user_id with
  | none => st
  | some sess =>
    let st := { st with store := ainsert st.store user_id { sess with ts := nowMs } }
    let st := cancel_calc_timeout st user_id
    { st with jobs := st.jobs ++ [(user_id, nowMs + calcTimeoutDelay)] }

/-- `_calc_timeout_job` firing for `user_id`: the scheduler consumes the
due job; the callback clears the session only if one is still present. -/
def calc_timeout_fire (st : CalcState) (user_id : Nat) : CalcState :=
  let st := { st with jobs := st.jobs.eraseP (fun j => decide (j.1 = user_id)) }
  if (alookup st.store user_id).isSome then { st with store := aerase st.store user_id }
  else st

/-- `get_active_calc_session`. -/
def get_active_calc_session (st : CalcState) (user_id : Nat) : Option String :=
  (alookup st.store user_id).map (fun s => s.session)

/-- `is_session_valid(user_id, session_id)`: Python
`session_id and (get_active_calc_session(...) == session_id)`; an empty
string is falsy. -/
def is_session_valid (st : CalcState) (user_id : Nat) (session_id : String) : Bool :=
  decide (session_id ≠ "") && decide (get_active_calc_session st user_id = some session_id)

/-- The operations an interleaving may perform on the session state. -/
inductive CalcOp where
  | start (user_id nowMs : Nat)
  | touch (user_id nowMs : Nat)
  | reset (user_id : Nat)
  | fire (user_id : Nat)
deriving DecidableEq, Repr

def stepCalc (st : CalcState) : CalcOp → CalcState
  | .start u t => (start_or_restart_calc_session st u t).1
  | .touch u t => touch_calc_session st u t
  | .reset u => reset_calc_session st u
  | .fire u => calc_timeout_fire st u

def initCalcState : CalcState := ⟨[], []⟩

/-- The session state after an interleaving of operations, starting from
the empty store. -/
def runCalc (ops : List CalcOp) : CalcState := ops.foldl stepCalc initCalcState

/-- The token issued by the most recent `start` for an actor in a trace. -/
def lastStartToken (ops : List CalcOp) (u : Nat) : Option String :=
  ops.foldl (fun acc op =>
    match op with
    | .start v t => if v = u then some (natToDecimal t) else acc
    | _ => acc) none

/-! ### Quote callbacks (`on_date_choice`, `on_time_choice`)

The callback payloads `date:<token>:<iso-date|free>` and
`time:<token>:<date>:<kind>:<duration>` are embedded after splitting; the
date component is either the literal `free` or a parsed day ordinal. -/

inductive DateArg where
  | free
  | day (d : Nat)
deriving DecidableEq, Repr

inductive QuoteResp where
  | expired
  | chooseDuration (kind : String)
  | priceShown (price : Nat)
  | notLinked
  | crash
deriving DecidableEq, Repr

structure DateChoiceOut where
  state : CalcState
  resp : QuoteResp
deriving DecidableEq, Repr

/-- `on_date_choice`: validate the token, touch the session, classify the
selected date and ask for a duration.  On a stale token it only answers
with the "this quote expired" message. -/
def on_date_choice (st : CalcState) (u : Nat) (session_id : String) (darg : DateArg)
    (holiday : Nat → Bool) (today hour nowMs : Nat) : DateChoiceOut :=
  if is_session_valid st u session_id then
    let st1 := touch_calc_session st u nowMs
    match darg with
    | .free => ⟨st1, .chooseDuration "free"⟩
    | .day d => ⟨st1, .chooseDuration (classify_kind holiday d today hour)⟩
  else ⟨st, .expired⟩

structure TimeChoiceOut where
  state : CalcState
  customers : Ledger
  resp : QuoteResp
  price : Option Nat
deriving DecidableEq, Repr

/-- `on_time_choice`: validate the token, touch the session, look up the
customer, compute the price (`calc_price`; a `KeyError` is the `crash`
outcome, reached after the touch), show it and reset the session.  On a
stale token it only answers with the "this quote expired" message. -/
def on_time_choice (st : CalcState) (customers : Ledger) (u : Nat)
    (session_id kind duration : String) (nowMs : Nat) : TimeChoiceOut :=
  if is_session_valid st u session_id then
    let st1 := touch_calc_session st u nowMs
    match find_customer_by_userid customers u with
    | none => ⟨reset_calc_session st1 u, customers, .notLinked, none⟩
    | some (_, cust) =>
      match calc_price kind duration cust.discount with
      | none => ⟨st1, customers, .crash, none⟩
      | some p => ⟨reset_calc_session st1 u, customers, .priceShown p, some p⟩
  else ⟨st, customers, .expired, none⟩

/-! ### Visit-entry wizard (admin `ConversationHandler`)

States mirror the `range(13)` constants used by the conversation; the
events are the callback presses each state's handler accepts.  A Python
`KeyError` inside a handler aborts it before it returns a new state, so
the conversation keeps its current state; such outcomes are embedded as
transitions that change exactly what was already mutated. -/

inductive WizState where
  | selectCustomer
  | selectAction
  | selectDate
  | selectKind
  | selectDuration
  | selectTariffType
  | confirmVisit
  | ended
deriving DecidableEq, Repr

/-- `context.user_data['admin_visit']`: the wizard draft, filled in step
by step (a missing dict key is `none`). -/
structure AdminVisit where
  cid : Option String := none
  customer_name : Option String := none
  date : Option String := none
  kind : Option String := none
  duration : Option String := none
  tariff_type : Option String := none
  price : Option Nat := none
deriving DecidableEq, Repr

structure WizConfig where
  customers : Ledger
  state : WizState
  visit : AdminVisit
  /-- Trace of the `VisitRecord`s committed so far (observation of the
  `visits.append` calls). -/
  committed : List Visit
deriving DecidableEq, Repr

inductive WizEvent where
  | selectCustomerE (cid : String)
  | addVisitE
  | deleteVisitE (cid : String) (i : Nat)
  | deleteAllE (cid : String)
  | addAmountE (cid : String) (amt : Int)
  | resetSumE (cid : String)
  | datePickE (d : String)
  | dateBackE
  | kindPickE (k : String)
  | kindBackE
  | durationPickE (d : String)
  | durationBackE
  | tariffPickE (t : String)
  | tariffBackE
  | confirmYesE
  | confirmBackE
  | cancelE
deriving DecidableEq, Repr

/-- Apply a per-record operation to one customer of the ledger
(`data["customers"][cid]` mutation followed by `recalc_discount`). -/
def updateCustomer (customers : Ledger) (cid : String) (op : LedgerOp) : Ledger :=
  customers.map (fun p => if p.1 = cid then (p.1, applyLedgerOp p.2 op) else p)

def wizStep (cfg : WizConfig) (e : WizEvent) : WizConfig :=
  match cfg.state, e with
  | .ended, _ => cfg
  | _, .cancelE => { cfg with state := .ended }
  | .selectCustomer, .selectCustomerE cid =>
    match alookup cfg.customers cid with
    | some c =>
      { cfg with state := .selectAction,
                 visit := { cid := some cid, customer_name := some c.name } }
    | none => cfg
  | .selectAction, .addVisitE => { cfg with state := .selectDate }
  | .selectAction, .deleteVisitE cid i =>
    match alookup cfg.customers cid with
    | some _ => { cfg with customers := updateCustomer cfg.customers cid (.removeVisit i) }
    | none => cfg
  | .selectAction, .deleteAllE cid =>
    match alookup cfg.customers cid with
    | some _ => { cfg with customers := updateCustomer cfg.customers cid .clearVisits }
    | none => cfg
  | .selectAction, .addAmountE cid amt =>
    match alookup cfg.customers cid with
    | some _ => { cfg with customers := updateCustomer cfg.customers cid (.addSum amt) }
    | none => cfg
  | .selectAction, .resetSumE cid =>
    match alookup cfg.customers cid with
    | some _ => { cfg with customers := updateCustomer cfg.customers cid .resetSum }
    | none => cfg
  | .selectDate, .datePickE d =>
    { cfg with state := .selectKind, visit := { cfg.visit with date := some d } }
  | .selectDate, .dateBackE => { cfg with state := .selectAction }
  | .selectKind, .kindPickE k =>
    match cfg.visit.date with
    | some _ => { cfg with state := .selectDuration, visit := { cfg.visit with kind := some k } }
    | none => cfg
  | .selectKind, .kindBackE => { cfg with state := .selectDate }
  | .selectDuration, .durationPickE d =>
    { cfg with state := .selectTariffType, visit := { cfg.visit with duration := some d } }
  | .selectDuration, .durationBackE => { cfg with state := .selectKind }
  | .selectTariffType, .tariffPickE t =>
    let visit1 := { cfg.visit with tariff_type := some t }
    match cfg.visit.cid, cfg.visit.kind, cfg.visit.duration with
    | some _, some k, some d =>
      match calc_price k d (t == "discount") with
      | some p =>
        let visit2 := { visit1 with price := some p }
        match cfg.visit.customer_name, cfg.visit.date with
        | some _, some _ => { cfg with state := .confirmVisit, visit := visit2 }
        | _, _ => { cfg with visit := visit2 }
      | none => { cfg with visit := visit1 }
    | _, _, _ => { cfg with visit := visit1 }
  | .selectTariffType, .tariffBackE => { cfg with state := .selectDuration }
  | .confirmVisit, .confirmYesE =>
    match cfg.visit.cid, cfg.visit.date, cfg.visit.kind, cfg.visit.duration,
        cfg.visit.price, cfg.visit.tariff_type with
    | some cid, some dt, some k, some d, some p, some t =>
      match alookup cfg.customers cid with
      | some _ =>
        let v : Visit := ⟨dt, k, d, p, t⟩
        { cfg with state := .ended,
                   customers := updateCustomer cfg.customers cid (.appendVisit v),
                   committed := cfg.committed ++ [v] }
      | none => cfg
    | _, _, _, _, _, _ => cfg
  | .confirmVisit, .confirmBackE => { cfg with state := .selectTariffType }
  | _, _ => cfg

def initWizConfig (customers : Ledger) : WizConfig :=
  { customers := customers, state := .selectCustomer, visit := {}, committed := [] }

def wizRun (customers : Ledger) (events : List WizEvent) : WizConfig :=
  events.foldl wizStep (initWizConfig customers)

/-! ### Shared demo inputs -/

def demoVisit : Visit := ⟨"2025-01-01", "exact", "4", 25000, "standard"⟩

def demoCustomer3 : Customer :=
  { name := "Demo", ids := ["42"], projects_sum := 0, discount := false,
    visits := [demoVisit, demoVisit, demoVisit] }

/-! ### C5 — date classification -/

/-- C5: for every selected date, current time and holiday set,
`classify_kind` returns `holiday` on a public holiday; otherwise
`urgent_today` when the selected date is today; otherwise
`urgent_tomorrow` when it is tomorrow and the hour is at least 17;
otherwise `exact` — holiday takes precedence, and the three scenario-C
cases hold. -/
theorem C5_classify_kind_cases (holiday : Nat → Bool) (sel today hour : Nat) :
    (holiday sel = true → classify_kind holiday sel today hour = "holiday")
    ∧ (holiday sel = false → sel = today →
        classify_kind holiday sel today hour = "urgent_today")
    ∧ (holiday sel = false → sel = today + 1 → 17 ≤ hour →
        classify_kind holiday sel today hour = "urgent_tomorrow")
    ∧ (holiday sel = false → sel ≠ today → (sel ≠ today + 1 ∨ hour < 17) →
        classify_kind holiday sel today hour = "exact")
    ∧ classify_kind (fun _ => false) 100 100 10 = "urgent_today"
    ∧ classify_kind (fun _ => false) 101 100 18 = "urgent_tomorrow"
    ∧ classify_kind (fun _ => false) 101 100 10 = "exact" := by
  refine ⟨?_, ?_, ?_, ?_, by decide, by decide, by decide⟩
  · intro h; simp [classify_kind, h]
  · intro h hsel; subst hsel; simp [classify_kind, h]
  · intro h hsel hh
    subst hsel
    have hne : today + 1 ≠ today := by omega
    simp [classify_kind, h, hne, hh]
  · intro h hne hcase
    rcases hcase with hc | hc
    · simp [classify_kind, h, hne, hc]
    · have : ¬ (sel = today + 1 ∧ 17 ≤ hour) := by omega
      simp [classify_kind, h, hne, this]

theorem C5_classify_kind_cases_witness :
    classify_kind (fun _ => true) 5 9 0 = "holiday"
    ∧ classify_kind (fun _ => false) 3 4 2 = "exact" :=
  ⟨(C5_classify_kind_cases (fun _ => true) 5 9 0).1 rfl,
   (C5_classify_kind_cases (fun _ => false) 3 4 2).2.2.2.1 rfl (by decide)
     (Or.inl (by decide))⟩

/-! ### C6 — price lookup totality over the enumerated space -/

/-- C6: for every kind in the five categories, every duration in the four
durations and both discount flags, `calc_price` succeeds with a positive
price taken from the matching tier table; the lookup-failure branch is
unreachable on this space. -/
theorem C6_calc_price_total :
    ∀ kind ∈ KINDS, ∀ duration ∈ DURATIONS, ∀ discount : Bool,
      (calc_price kind duration discount).isSome = true
      ∧ 0 < (calc_price kind duration discount).getD 0
      ∧ calc_price kind duration discount
          = tariffLookup (if discount then TARIFFS_DISCOUNT else TARIFFS_STANDARD)
              kind duration := by
  decide

theorem C6_calc_price_total_witness :
    (calc_price "free" "4" true).isSome = true
    ∧ 0 < (calc_price "free" "4" true).getD 0
    ∧ calc_price "free" "4" true
        = tariffLookup (if true then TARIFFS_DISCOUNT else TARIFFS_STANDARD) "free" "4" :=
  C6_calc_price_total "free" (by decide) "4" (by decide) true

/-! ### C3 — derived discount flag -/

/-- The invariant the spec states for `discount`. -/
def discountCoherent (c : Customer) : Prop :=
  c.discount = (decide (4 ≤ c.visits.length) || decide ((60000 : Int) ≤ c.projects_sum))

/-- An operation actually mutates the record: only an out-of-range
`removeVisit` index is rejected without touching the record. -/
def ledgerOpInRange (c : Customer) : LedgerOp → Prop
  | .removeVisit i => i < c.visits.length
  | _ => True

/-- C3: after every mutating ledger operation the discount flag equals
`len(visits) >= 4 or projects_sum >= 60000`; a fresh customer starts with
0 visits, sum 0 and flag false; the 4th appended visit turns the flag
true. -/
theorem C3_discount_recomputed :
    (∀ c op, ledgerOpInRange c op → discountCoherent (applyLedgerOp c op))
    ∧ (∀ nm, (freshCustomer nm).discount = false ∧ (freshCustomer nm).visits.length = 0
        ∧ (freshCustomer nm).projects_sum = 0)
    ∧ (∀ c v, c.visits.length = 3 → (applyLedgerOp c (.appendVisit v)).discount = true) := by
  refine ⟨?_, fun nm => ⟨rfl, rfl, rfl⟩, ?_⟩
  · intro c op hop
    cases op with
    | removeVisit i =>
      simp only [ledgerOpInRange] at hop
      simp [applyLedgerOp, hop, recalc_discount, discountCoherent]
    | _ => simp [applyLedgerOp, recalc_discount, discountCoherent]
  · intro c v h
    simp [applyLedgerOp, recalc_discount, h]

theorem C3_discount_recomputed_witness :
    discountCoherent (applyLedgerOp demoCustomer3 (.removeVisit 0))
    ∧ (applyLedgerOp demoCustomer3 (.appendVisit demoVisit)).discount = true :=
  ⟨C3_discount_recomputed.1 demoCustomer3 (.removeVisit 0)
     (show 0 < demoCustomer3.visits.length by decide),
   C3_discount_recomputed.2.2 demoCustomer3 demoVisit (by decide)⟩

/-! ### C2 — at most one session per actor -/

theorem runCalc_append (ops : List CalcOp) (op : CalcOp) :
    runCalc (ops ++ [op]) = stepCalc (runCalc ops) op := by
  simp [runCalc, List.foldl_append]

theorem stepCalc_keys_nodup (st : CalcState) (op : CalcOp)
    (h : (akeys st.store).Nodup) : (akeys (stepCalc st op).store).Nodup := by
  cases op with
  | start u t =>
    exact akeys_nodup_ainsert _ _ _ (akeys_nodup_aerase _ _ h)
  | touch u t =>
    simp only [stepCalc, touch_calc_session]
    cases hl : alookup st.store u with
    | none => exact h
    | some s => exact akeys_nodup_ainsert _ _ _ h
  | reset u => exact akeys_nodup_aerase _ _ h
  | fire u =>
    simp only [stepCalc, calc_timeout_fire]
    by_cases hb : (alookup st.store u).isSome
    · simp only [hb, if_true]
      exact akeys_nodup_aerase _ _ h
    · simp only [hb, if_false]
      exact h

theorem foldl_stepCalc_keys_nodup (ops : List CalcOp) : ∀ (st : CalcState),
    (akeys st.store).Nodup → (akeys (ops.foldl stepCalc st).store).Nodup := by
  induction ops with
  | nil => intro st h; exact h
  | cons op rest ih => intro st h; exact ih _ (stepCalc_keys_nodup st op h)

/-- C2: under every interleaving of start/touch/reset/timeout operations
the quote-session store holds at most one entry per actor, and a `start`
replaces any existing session of the actor by the freshly created one. -/
theorem C2_at_most_one_session (ops : List CalcOp) (u : Nat) :
    ((runCalc ops).store.filter (fun p => decide (p.1 = u))).length ≤ 1
    ∧ ∀ t, alookup (runCalc (ops ++ [CalcOp.start u t])).store u
        = some ⟨natToDecimal t, t⟩ := by
  constructor
  · exact filter_key_length_le_one _ _
      (foldl_stepCalc_keys_nodup ops initCalcState (by simp [initCalcState, akeys]))
  · intro t
    rw [runCalc_append]
    exact alookup_ainsert_self _ _ _

/-! ### C10 — touch is a frame for the token -/

/-- C10: `touch_calc_session` never changes the stored token — validation
answers exactly as before the touch; with no active session the state is
left entirely unchanged; with an active session only `ts` is updated and
the timeout job is cancelled and rescheduled. -/
theorem C10_touch_frame (st : CalcState) (u nowMs : Nat) :
    (∀ tok, is_session_valid (touch_calc_session st u nowMs) u tok
        = is_session_valid st u tok)
    ∧ (alookup st.store u = none → touch_calc_session st u nowMs = st)
    ∧ (∀ sess, alookup st.store u = some sess →
        alookup (touch_calc_session st u nowMs).store u = some { sess with ts := nowMs }
        ∧ (touch_calc_session st u nowMs).jobs
            = st.jobs.filter (fun j => decide (j.1 ≠ u)) ++ [(u, nowMs + calcTimeoutDelay)]) := by
  refine ⟨?_, ?_, ?_⟩
  · intro tok
    cases hl : alookup st.store u with
    | none => simp [touch_calc_session, hl]
    | some sess =>
      have hafter : get_active_calc_session (touch_calc_session st u nowMs) u
          = some sess.session := by
        simp [touch_calc_session, hl, get_active_calc_session, cancel_calc_timeout,
          alookup_ainsert_self]
      have hbefore : get_active_calc_session st u = some sess.session := by
        simp [get_active_calc_session, hl]
      simp [is_session_valid, hafter, hbefore]
  · intro h; simp [touch_calc_session, h]
  · intro sess h
    constructor
    · simp [touch_calc_session, h, cancel_calc_timeout, alookup_ainsert_self]
    · simp [touch_calc_session, h, cancel_calc_timeout]

theorem C10_touch_frame_witness :
    alookup (touch_calc_session (runCalc [CalcOp.start 1 5]) 1 77).store 1
      = some ⟨natToDecimal 5, 77⟩
    ∧ is_session_valid (touch_calc_session (runCalc [CalcOp.start 1 5]) 1 77) 1 (natToDecimal 5)
        = is_session_valid (runCalc [CalcOp.start 1 5]) 1 (natToDecimal 5) :=
  ⟨((C10_touch_frame (runCalc [CalcOp.start 1 5]) 1 77).2.2 ⟨natToDecimal 5, 5⟩
      (by decide)).1,
   (C10_touch_frame (runCalc [CalcOp.start 1 5]) 1 77).1 (natToDecimal 5)⟩

/-! ### C8 — stale quote callbacks -/

/-- C8 (amended): on a token mismatch or an absent session both quote
callbacks answer with the "this quote expired" message, compute no price,
mutate no ledger state — and leave the session store unchanged (the code
does not forcibly reset the session in this branch). -/
theorem C8_stale_callback_rejected (st : CalcState) (customers : Ledger) (u : Nat)
    (session_id : String) (darg : DateArg) (holiday : Nat → Bool)
    (today hour nowMs : Nat) (kind duration : String)
    (h : is_session_valid st u session_id = false) :
    (on_date_choice st u session_id darg holiday today hour nowMs).resp = .expired
    ∧ (on_date_choice st u session_id darg holiday today hour nowMs).state = st
    ∧ (on_time_choice st customers u session_id kind duration nowMs).resp = .expired
    ∧ (on_time_choice st customers u session_id kind duration nowMs).state = st
    ∧ (on_time_choice st customers u session_id kind duration nowMs).customers = customers
    ∧ (on_time_choice st customers u session_id kind duration nowMs).price = none := by
  simp [on_date_choice, on_time_choice, h]

theorem C8_stale_callback_rejected_witness :
    (on_time_choice (runCalc [CalcOp.start 7 5]) [] 7 "1234" "exact" "4" 20).price = none :=
  (C8_stale_callback_rejected (runCalc [CalcOp.start 7 5]) [] 7 "1234" DateArg.free
      (fun _ => false) 10 10 20 "exact" "4" (by decide)).2.2.2.2.2

/-- C8 counterexample: a stale `date:` press while a fresh session is
active is answered with the expired message, but the actor's session is
not reset — the current token still validates afterwards, refuting
"the actor's session is forcibly reset". -/
theorem C8_counterexample_session_not_reset :
    (on_date_choice (runCalc [CalcOp.start 7 5]) 7 "999" (DateArg.day 3)
        (fun _ => false) 10 10 20).resp = QuoteResp.expired
    ∧ is_session_valid
        (on_date_choice (runCalc [CalcOp.start 7 5]) 7 "999" (DateArg.day 3)
          (fun _ => false) 10 10 20).state 7 (natToDecimal 5) = true := by
  decide

/-! ### C1 — validate answers exactly for the most recent token -/

theorem lastStartToken_append (ops : List CalcOp) (op : CalcOp) (u : Nat) :
    lastStartToken (ops ++ [op]) u =
      match op with
      | .start v t => if v = u then some (natToDecimal t) else lastStartToken ops u
      | _ => lastStartToken ops u := by
  cases op <;> simp [lastStartToken, List.foldl_append]

/-- Any session stored after a trace carries exactly the token issued by
the most recent `start` of that actor, and every stored token is a
printed millisecond timestamp. -/
theorem stored_token_from_start (ops : List CalcOp) : ∀ (u : Nat) (sess : Session),
    alookup (runCalc ops).store u = some sess →
    lastStartToken ops u = some sess.session ∧ ∃ n, sess.session = natToDecimal n := by
  induction ops using List.reverseRecOn with
  | nil =>
    intro u sess h
    simp [runCalc, initCalcState, alookup] at h
  | append_singleton ops op ih =>
    intro u sess h
    rw [runCalc_append] at h
    rw [lastStartToken_append]
    cases op with
    | start v t =>
      by_cases hv : v = u
      · subst hv
        have hs : sess = ⟨natToDecimal t, t⟩ := by
          rw [show (stepCalc (runCalc ops) (.start v t)).store
              = ainsert (aerase (runCalc ops).store v) v ⟨natToDecimal t, t⟩ from rfl,
            alookup_ainsert_self] at h
          exact (Option.some.inj h).symm
        subst hs
        exact ⟨by simp, ⟨t, rfl⟩⟩
      · have hl : alookup (stepCalc (runCalc ops) (.start v t)).store u
            = alookup (runCalc ops).store u := by
          rw [show (stepCalc (runCalc ops) (.start v t)).store
              = ainsert (aerase (runCalc ops).store v) v ⟨natToDecimal t, t⟩ from rfl,
            alookup_ainsert_ne _ _ _ _ (fun hc => hv hc.symm),
            alookup_aerase_ne _ _ _ (fun hc => hv hc.symm)]
        rw [hl] at h
        have := ih u sess h
        simpa [hv] using this
    | touch v t =>
      cases hl : alookup (runCalc ops).store v with
      | none =>
        rw [show stepCalc (runCalc ops) (.touch v t) = runCalc ops from by
          simp [stepCalc, touch_calc_session, hl]] at h
        exact ih u sess h
      | some s0 =>
        by_cases hv : v = u
        · subst hv
          have hstore : (stepCalc (runCalc ops) (.touch v t)).store
              = ainsert (runCalc ops).store v { s0 with ts := t } := by
            simp [stepCalc, touch_calc_session, hl, cancel_calc_timeout]
          rw [hstore, alookup_ainsert_self] at h
          have hs : sess = { s0 with ts := t } := (Option.some.inj h).symm
          subst hs
          simpa using ih v s0 hl
        · have hstore : alookup (stepCalc (runCalc ops) (.touch v t)).store u
              = alookup (runCalc ops).store u := by
            simp [stepCalc, touch_calc_session, hl, cancel_calc_timeout,
              alookup_ainsert_ne _ _ _ _ (fun hc => hv hc.symm)]
          rw [hstore] at h
          exact ih u sess h
    | reset v =>
      by_cases hv : v = u
      · subst hv
        rw [show (stepCalc (runCalc ops) (.reset v)).store
            = aerase (runCalc ops).store v from rfl, alookup_aerase_self] at h
        exact absurd h (by simp)
      · have hl : alookup (stepCalc (runCalc ops) (.reset v)).store u
            = alookup (runCalc ops).store u := by
          rw [show (stepCalc (runCalc ops) (.reset v)).store
              = aerase (runCalc ops).store v from rfl,
            alookup_aerase_ne _ _ _ (fun hc => hv hc.symm)]
        rw [hl] at h
        exact ih u sess h
    | fire v =>
      by_cases hb : (alookup (runCalc ops).store v).isSome
      · have hstore : (stepCalc (runCalc ops) (.fire v)).store
            = aerase (runCalc ops).store v := by
          simp [stepCalc, calc_timeout_fire, hb]
        rw [hstore] at h
        by_cases hv : v = u
        · subst hv
          rw [alookup_aerase_self] at h
          exact absurd h (by simp)
        · rw [alookup_aerase_ne _ _ _ (fun hc => hv hc.symm)] at h
          exact ih u sess h
      · have hstore : (stepCalc (runCalc ops) (.fire v)).store = (runCalc ops).store := by
          simp [stepCalc, calc_timeout_fire, hb]
        rw [hstore] at h
        exact ih u sess h

/-- C1: `is_session_valid` answers true exactly when a session is stored
for the actor and the supplied token is the one issued by the most recent
start; in particular a superseded token is rejected after a second start,
and every token is rejected after a reset, a timeout firing, or the
successful completion of a quote. -/
theorem C1_validate_iff :
    (∀ ops u tok, is_session_valid (runCalc ops) u tok = true ↔
        ((alookup (runCalc ops).store u).isSome = true ∧ lastStartToken ops u = some tok))
    ∧ (∀ ops u t1 t2, t1 ≠ t2 →
        is_session_valid (runCalc (ops ++ [CalcOp.start u t1, CalcOp.start u t2])) u
          (natToDecimal t1) = false)
    ∧ (∀ ops u tok,
        is_session_valid (runCalc (ops ++ [CalcOp.reset u])) u tok = false)
    ∧ (∀ ops u tok,
        is_session_valid (runCalc (ops ++ [CalcOp.fire u])) u tok = false)
    ∧ (∀ st customers u sid kind dur nowMs p tok,
        (on_time_choice st customers u sid kind dur nowMs).resp = QuoteResp.priceShown p →
        is_session_valid (on_time_choice st customers u sid kind dur nowMs).state u tok
          = false) := by
  refine ⟨?_, ?_, ?_, ?_, ?_⟩
  · intro ops u tok
    constructor
    · intro h
      simp only [is_session_valid, Bool.and_eq_true, decide_eq_true_eq] at h
      obtain ⟨hne, hact⟩ := h
      simp only [get_active_calc_session, Option.map_eq_some'] at hact
      obtain ⟨sess, hsess, htok⟩ := hact
      have := stored_token_from_start ops u sess hsess
      exact ⟨by simp [hsess], by rw [this.1, htok]⟩
    · intro ⟨hsome, hlast⟩
      obtain ⟨sess, hsess⟩ := Option.isSome_iff_exists.mp hsome
      obtain ⟨hstart, n, hn⟩ := stored_token_from_start ops u sess hsess
      rw [hstart] at hlast
      have htok : tok = sess.session := (Option.some.inj hlast).symm
      subst htok
      simp only [is_session_valid, Bool.and_eq_true, decide_eq_true_eq]
      refine ⟨by rw [hn]; exact natToDecimal_ne_empty n, ?_⟩
      simp [get_active_calc_session, hsess]
  · intro ops u t1 t2 hne
    have hsplit : ops ++ [CalcOp.start u t1, CalcOp.start u t2]
        = (ops ++ [CalcOp.start u t1]) ++ [CalcOp.start u t2] := by simp
    rw [hsplit, runCalc_append]
    have hstore : (stepCalc (runCalc (ops ++ [CalcOp.start u t1])) (.start u t2)).store
        = ainsert (aerase (runCalc (ops ++ [CalcOp.start u t1])).store u) u
            ⟨natToDecimal t2, t2⟩ := rfl
    have hact : get_active_calc_session
        (stepCalc (runCalc (ops ++ [CalcOp.start u t1])) (.start u t2)) u
        = some (natToDecimal t2) := by
      simp [get_active_calc_session, hstore, alookup_ainsert_self]
    simp only [is_session_valid, hact, Bool.and_eq_false_iff, decide_eq_false_iff_not]
    right
    intro hc
    exact hne (natToDecimal_injective (Option.some.inj hc)).symm
  · intro ops u tok
    rw [runCalc_append]
    have hact : get_active_calc_session (stepCalc (runCalc ops) (.reset u)) u = none := by
      simp [get_active_calc_session,
        show (stepCalc (runCalc ops) (.reset u)).store = aerase (runCalc ops).store u from rfl,
        alookup_aerase_self]
    simp [is_session_valid, hact]
  · intro ops u tok
    rw [runCalc_append]
    have hact : get_active_calc_session (stepCalc (runCalc ops) (.fire u)) u = none := by
      by_cases hb : (alookup (runCalc ops).store u).isSome
      · simp [get_active_calc_session, stepCalc, calc_timeout_fire, hb, alookup_aerase_self]
      · simp [get_active_calc_session, stepCalc, calc_timeout_fire, hb]
        exact Option.not_isSome_iff_eq_none.mp hb
    simp [is_session_valid, hact]
  · intro st customers u sid kind dur nowMs p tok hresp
    by_cases hv : is_session_valid st u sid
    · simp only [on_time_choice, hv, if_true] at hresp ⊢
      cases hf : find_customer_by_userid customers u with
      | none => simp [hf] at hresp
      | some pr =>
        obtain ⟨cid, cust⟩ := pr
        cases hp : calc_price kind dur cust.discount with
        | none => simp [hf, hp] at hresp
        | some p' =>
          simp only [hf, hp]
          have hact : get_active_calc_session
              (reset_calc_session (touch_calc_session st u nowMs) u) u = none := by
            simp [get_active_calc_session, reset_calc_session, cancel_calc_timeout,
              alookup_aerase_self]
          simp [is_session_valid, hact]
    · simp [on_time_choice, hv] at hresp

theorem C1_validate_iff_witness :
    is_session_valid (runCalc ([] ++ [CalcOp.start 7 1, CalcOp.start 7 2])) 7
      (natToDecimal 1) = false :=
  C1_validate_iff.2.1 [] 7 1 2 (by decide)

/-! ### C7 — actor linking -/

theorem erase_if_mem (l : List String) (a : String) :
    (if a ∈ l then l.erase a else l) = l.erase a := by
  split
  · rfl
  · exact (List.erase_of_not_mem (by assumption)).symm

theorem not_mem_erase_of_count_le_one (l : List String) (a : String)
    (h : l.count a ≤ 1) : a ∉ l.erase a := by
  intro hmem
  have hc : (l.erase a).count a = l.count a - 1 := List.count_erase_self a l
  have hpos : 0 < (l.erase a).count a := List.count_pos_iff.mpr hmem
  have hl : 0 < l.count a := List.count_pos_iff.mpr (List.mem_of_mem_erase hmem)
  omega

theorem mem_akeys_of_alookup {κ β : Type} [DecidableEq κ] (l : List (κ × β)) (k : κ) (v : β)
    (h : alookup l k = some v) : k ∈ akeys l := by
  induction l with
  | nil => simp [alookup] at h
  | cons p rest ih =>
    by_cases hp : p.1 = k
    · rw [← hp]; exact List.mem_cons_self _ _
    · simp only [alookup, hp, if_false] at h
      exact List.mem_cons_of_mem _ (ih h)

theorem alookup_eq_none_of_not_mem {κ β : Type} [DecidableEq κ] (l : List (κ × β)) (k : κ)
    (h : k ∉ akeys l) : alookup l k = none := by
  cases hl : alookup l k with
  | none => rfl
  | some v => exact absurd (mem_akeys_of_alookup l k v hl) h

theorem akeys_map_fst_preserving {κ β : Type} (l : List (κ × β)) (g : (κ × β) → (κ × β))
    (hg : ∀ p, (g p).1 = p.1) : akeys (l.map g) = akeys l := by
  unfold akeys
  rw [List.map_map]
  exact List.map_congr_left (fun p _ => hg p)

theorem alookup_map_fst_preserving {κ β : Type} [DecidableEq κ] (l : List (κ × β))
    (g : (κ × β) → (κ × β)) (hg : ∀ p, (g p).1 = p.1) (k : κ) :
    alookup (l.map g) k = (alookup l k).map (fun v => (g (k, v)).2) := by
  induction l with
  | nil => rfl
  | cons p rest ih =>
    by_cases hp : p.1 = k
    · have hgp : (g p).1 = k := by rw [hg p, hp]
      have hpe : p = (k, p.2) := by rw [← hp]
      simp only [List.map_cons, alookup, hgp, if_true, hp, Option.map_some']
      rw [← hpe]
    · have hgp : ¬ (g p).1 = k := by rw [hg p]; exact hp
      simp only [List.map_cons, alookup, hgp, if_false, hp, ih]

theorem filter_key_length_eq_one {κ β : Type} [DecidableEq κ] (l : List (κ × β)) (k : κ)
    (hnd : (akeys l).Nodup) (hmem : k ∈ akeys l) :
    (l.filter (fun p => decide (p.1 = k))).length = 1 := by
  have hle := filter_key_length_le_one l k hnd
  obtain ⟨p, hp, hpk⟩ := List.mem_map.mp hmem
  have hmf : p ∈ l.filter (fun p => decide (p.1 = k)) :=
    List.mem_filter.mpr ⟨hp, by simp [hpk]⟩
  have hpos : 0 < (l.filter (fun p => decide (p.1 = k))).length :=
    List.length_pos_of_mem hmf
  omega

theorem linkActor_eq (customers : Ledger) (cid uid : String) (c0 : Customer)
    (hc : alookup customers cid = some c0) :
    linkActor customers cid uid =
      (customers.map (fun p => (p.1, { p.2 with ids := p.2.ids.erase uid }))).map
        (fun p => if p.1 = cid then
            (p.1, { p.2 with ids := if uid ∈ p.2.ids then p.2.ids else p.2.ids ++ [uid] })
          else p) := by
  simp only [linkActor, hc, erase_if_mem]

/-- C7: linking an actor to an existing customer leaves the actor id in
the target's list and in no other record — exactly one record carries it —
and performing the same link again leaves the ledger unchanged. -/
theorem C7_link_unique_idempotent (customers : Ledger) (cid uid : String)
    (c0 : Customer) (hc : alookup customers cid = some c0)
    (hnd : (akeys customers).Nodup)
    (hcount : ∀ p ∈ customers, p.2.ids.count uid ≤ 1) :
    (∀ p ∈ linkActor customers cid uid, (uid ∈ p.2.ids ↔ p.1 = cid))
    ∧ ((linkActor customers cid uid).filter (fun p => decide (uid ∈ p.2.ids))).length = 1
    ∧ linkActor (linkActor customers cid uid) cid uid = linkActor customers cid uid := by
  have hmemiff : ∀ p ∈ linkActor customers cid uid, (uid ∈ p.2.ids ↔ p.1 = cid) := by
    intro p hp
    rw [linkActor_eq customers cid uid c0 hc] at hp
    obtain ⟨q1, hq1, rfl⟩ := List.mem_map.mp hp
    obtain ⟨q0, hq0, rfl⟩ := List.mem_map.mp hq1
    have hnm : uid ∉ q0.2.ids.erase uid :=
      not_mem_erase_of_count_le_one _ _ (hcount q0 hq0)
    by_cases hk : q0.1 = cid
    · simp [hk, hnm]
    · simp [hk, hnm]
  have hkeys : akeys (linkActor customers cid uid) = akeys customers := by
    rw [linkActor_eq customers cid uid c0 hc,
      akeys_map_fst_preserving _ _ (fun p => by split <;> rfl)]
    exact akeys_map_fst_preserving customers
      (fun p => (p.1, { p.2 with ids := p.2.ids.erase uid })) (fun p => rfl)
  refine ⟨hmemiff, ?_, ?_⟩
  · have hfc : (linkActor customers cid uid).filter (fun p => decide (uid ∈ p.2.ids))
        = (linkActor customers cid uid).filter (fun p => decide (p.1 = cid)) := by
      apply List.filter_congr
      intro p hp
      exact decide_eq_decide.mpr (hmemiff p hp)
    rw [hfc]
    apply filter_key_length_eq_one
    · rw [hkeys]; exact hnd
    · rw [hkeys]; exact mem_akeys_of_alookup customers cid c0 hc
  · -- idempotence
    have hsome2 : (alookup (linkActor customers cid uid) cid).isSome = true := by
      rw [linkActor_eq customers cid uid c0 hc,
        alookup_map_fst_preserving _ _ (fun p => by split <;> rfl)]
      rw [alookup_map_fst_preserving customers
        (fun p => (p.1, { p.2 with ids := p.2.ids.erase uid })) (fun p => rfl)]
      rw [hc]
      rfl
    obtain ⟨c2, hc2⟩ := Option.isSome_iff_exists.mp hsome2
    rw [linkActor_eq (linkActor customers cid uid) cid uid c2 hc2]
    rw [List.map_map]
    have hpt : ∀ p ∈ linkActor customers cid uid,
        ((fun p => if p.1 = cid then
            (p.1, { p.2 with ids := if uid ∈ p.2.ids then p.2.ids else p.2.ids ++ [uid] })
          else p) ∘ (fun p => (p.1, { p.2 with ids := p.2.ids.erase uid }))) p = p := by
      intro p hp
      rw [linkActor_eq customers cid uid c0 hc] at hp
      obtain ⟨q1, hq1, rfl⟩ := List.mem_map.mp hp
      obtain ⟨q0, hq0, rfl⟩ := List.mem_map.mp hq1
      have hnm : uid ∉ q0.2.ids.erase uid :=
        not_mem_erase_of_count_le_one _ _ (hcount q0 hq0)
      by_cases hk : q0.1 = cid
      · simp [Function.comp, hk, hnm, List.erase_append_right _ hnm, List.erase_cons_head]
      · simp [Function.comp, hk, List.erase_of_not_mem hnm]
    have hmap : (linkActor customers cid uid).map
        ((fun p => if p.1 = cid then
            (p.1, { p.2 with ids := if uid ∈ p.2.ids then p.2.ids else p.2.ids ++ [uid] })
          else p) ∘ (fun p => (p.1, { p.2 with ids := p.2.ids.erase uid })))
        = (linkActor customers cid uid).map id :=
      List.map_congr_left (fun p hp => hpt p hp)
    rw [hmap, List.map_id]

def demoLedger7 : Ledger :=
  [("1", { freshCustomer "A" with ids := ["9"] }), ("2", freshCustomer "B")]

theorem C7_link_unique_idempotent_witness :
    linkActor (linkActor demoLedger7 "2" "9") "2" "9" = linkActor demoLedger7 "2" "9" :=
  (C7_link_unique_idempotent demoLedger7 "2" "9" (freshCustomer "B") (by decide) (by decide)
    (by decide)).2.2

/-! ### C9 — customer id generation -/

theorem foldl_max_init_le (l : List Nat) : ∀ i, i ≤ l.foldl Nat.max i := by
  induction l with
  | nil => intro i; simp
  | cons b rest ih =>
    intro i
    exact le_trans (Nat.le_max_left i b) (ih (Nat.max i b))

theorem mem_le_foldl_max (l : List Nat) : ∀ i a, a ∈ l → a ≤ l.foldl Nat.max i := by
  induction l with
  | nil => intro i a h; cases h
  | cons b rest ih =>
    intro i a h
    rcases List.mem_cons.mp h with rfl | hmem
    · exact le_trans (Nat.le_max_right i a) (foldl_max_init_le rest _)
    · exact ih _ a hmem

theorem mem_numericIds (customers : Ledger) (k : String)
    (hk : k ∈ akeys customers) (hd : strIsDigits k = true) :
    strToNat k ∈ numericIds customers := by
  unfold numericIds
  exact List.mem_filterMap.mpr ⟨k, hk, by simp [hd]⟩

/-- C9 (amended): on an empty ledger the new customer gets id "1"; when
at least one existing id is a digit string, the generated id is the
successor of the maximal numeric id, it is fresh, and `ensure_customer`
appends a new record without touching the existing ones.  (On a nonempty
ledger with no numeric id the generation raises instead — see the
counterexample.) -/
theorem C9_fresh_id_generation (customers : Ledger) :
    (customers = [] → ∀ nm, generate_customer_id customers = some "1"
      ∧ ensure_customer customers nm = some ("1", [("1", freshCustomer nm)]))
    ∧ (∀ k ∈ akeys customers, strIsDigits k = true →
        generate_customer_id customers
            = some (natToDecimal ((numericIds customers).foldl Nat.max 0 + 1))
        ∧ natToDecimal ((numericIds customers).foldl Nat.max 0 + 1) ∉ akeys customers
        ∧ ∀ nm, ensure_customer customers nm
            = some (natToDecimal ((numericIds customers).foldl Nat.max 0 + 1),
                customers ++ [(natToDecimal ((numericIds customers).foldl Nat.max 0 + 1),
                  freshCustomer nm)])) := by
  constructor
  · rintro rfl nm
    exact ⟨rfl, rfl⟩
  · intro k hk hd
    have hne : customers ≠ [] := by
      intro hc; rw [hc] at hk; simp [akeys] at hk
    have hnum : strToNat k ∈ numericIds customers := mem_numericIds customers k hk hd
    have hgen : generate_customer_id customers
        = some (natToDecimal ((numericIds customers).foldl Nat.max 0 + 1)) := by
      unfold generate_customer_id
      rw [if_neg (by simpa [List.isEmpty_iff] using hne)]
      cases hni : numericIds customers with
      | nil => rw [hni] at hnum; cases hnum
      | cons n rest => rfl
    have hfresh : natToDecimal ((numericIds customers).foldl Nat.max 0 + 1)
        ∉ akeys customers := by
      intro hmem
      have hdig : strIsDigits (natToDecimal ((numericIds customers).foldl Nat.max 0 + 1))
          = true := strIsDigits_natToDecimal _
      have hval : strToNat (natToDecimal ((numericIds customers).foldl Nat.max 0 + 1))
          = (numericIds customers).foldl Nat.max 0 + 1 := strToNat_natToDecimal _
      have hin : (numericIds customers).foldl Nat.max 0 + 1 ∈ numericIds customers := by
        rw [← hval]
        exact mem_numericIds customers _ hmem hdig
      have := mem_le_foldl_max (numericIds customers) 0 _ hin
      omega
    refine ⟨hgen, hfresh, ?_⟩
    intro nm
    unfold ensure_customer
    rw [hgen]
    simp only [Option.map_some']
    rw [alookup_eq_none_of_not_mem _ _ hfresh]

def demoLedger9 : Ledger :=
  [("2", { freshCustomer "A" with ids := ["11"] }),
   ("007", { freshCustomer "B" with ids := ["12"] })]

theorem C9_fresh_id_generation_witness :
    generate_customer_id demoLedger9
        = some (natToDecimal ((numericIds demoLedger9).foldl Nat.max 0 + 1))
    ∧ natToDecimal ((numericIds demoLedger9).foldl Nat.max 0 + 1) ∉ akeys demoLedger9
    ∧ ∀ nm, ensure_customer demoLedger9 nm
        = some (natToDecimal ((numericIds demoLedger9).foldl Nat.max 0 + 1),
            demoLedger9 ++ [(natToDecimal ((numericIds demoLedger9).foldl Nat.max 0 + 1),
              freshCustomer nm)]) :=
  (C9_fresh_id_generation demoLedger9).2 "2" (by decide) (by decide)

/-- C9 counterexample: on a nonempty ledger whose keys are all
non-numeric, `generate_customer_id` hits `max()` of an empty sequence —
a `ValueError` — and no id is assigned, so "for every ledger state,
creating a customer assigns ... the decimal string of one plus the
maximum numeric id" fails. -/
theorem C9_counterexample_nonnumeric_ledger :
    generate_customer_id [("abc", { freshCustomer "X" with ids := ["5"] })] = none
    ∧ ensure_customer [("abc", { freshCustomer "X" with ids := ["5"] })] "Y" = none := by
  decide

/-! ### C4 — only CONFIRM commits, at the latest draft's price -/

theorem alookup_updateCustomer (customers : Ledger) (cid : String) (op : LedgerOp)
    (k : String) :
    alookup (updateCustomer customers cid op) k
      = (alookup customers k).map (fun c => if k = cid then applyLedgerOp c op else c) := by
  unfold updateCustomer
  rw [alookup_map_fst_preserving customers _ (fun p => by split <;> rfl) k]
  cases halk : alookup customers k with
  | none => rfl
  | some c =>
    simp only [Option.map_some']
    by_cases hkc : k = cid <;> simp [hkc]

theorem applyLedgerOp_visits_subset (c : Customer) (op : LedgerOp)
    (hop : ∀ w, op ≠ LedgerOp.appendVisit w) :
    ∀ v ∈ (applyLedgerOp c op).visits, v ∈ c.visits := by
  intro v hv
  cases op with
  | appendVisit w => exact absurd rfl (hop w)
  | removeVisit i =>
    simp only [applyLedgerOp] at hv
    split at hv
    · simp only [recalc_discount] at hv
      exact (c.visits.eraseIdx_sublist i).mem hv
    · exact hv
  | clearVisits => simp [applyLedgerOp, recalc_discount] at hv
  | addSum amt => simpa [applyLedgerOp, recalc_discount] using hv
  | setSum amt => simpa [applyLedgerOp, recalc_discount] using hv
  | resetSum => simpa [applyLedgerOp, recalc_discount] using hv

theorem wizStep_customers_cases (cfg : WizConfig) (e : WizEvent) :
    (wizStep cfg e).customers = cfg.customers
    ∨ (∃ cid op, (∀ w, op ≠ LedgerOp.appendVisit w)
        ∧ (wizStep cfg e).customers = updateCustomer cfg.customers cid op)
    ∨ (cfg.state = WizState.confirmVisit ∧ e = WizEvent.confirmYesE) := by
  obtain ⟨cust, stt, vis, log⟩ := cfg
  cases stt <;> cases e <;> simp only [wizStep] <;>
    first
      | (left; first | rfl | trivial)
      | (right; right; constructor <;> (first | rfl | trivial))
      | ((repeat' split) <;>
          first
            | (left; first | rfl | trivial)
            | (right; left; refine ⟨_, _, ?_, rfl⟩; intro w hw; cases hw))

theorem wizStep_no_new_visit (cfg : WizConfig) (e : WizEvent) (cid' : String) (c' : Customer)
    (hl : alookup (wizStep cfg e).customers cid' = some c') :
    ∀ v ∈ c'.visits,
      (∃ c0, alookup cfg.customers cid' = some c0 ∧ v ∈ c0.visits)
      ∨ (cfg.state = WizState.confirmVisit ∧ e = WizEvent.confirmYesE) := by
  intro v hv
  rcases wizStep_customers_cases cfg e with hcc | ⟨cid, op, hop, hcc⟩ | hconf
  · rw [hcc] at hl
    exact Or.inl ⟨c', hl, hv⟩
  · rw [hcc, alookup_updateCustomer] at hl
    obtain ⟨c0, hc0, hfc⟩ := Option.map_eq_some'.mp hl
    left
    refine ⟨c0, hc0, ?_⟩
    by_cases hkc : cid' = cid
    · rw [if_pos hkc] at hfc
      rw [← hfc] at hv
      exact applyLedgerOp_visits_subset c0 op hop v hv
    · rw [if_neg hkc] at hfc
      rw [← hfc] at hv
      exact hv
  · exact Or.inr hconf

/-- In the CONFIRM state the draft's stored price always equals the
tariff-table price of its stored kind/duration/tariff-type. -/
def draftCoherent (vis : AdminVisit) : Prop :=
  ∀ k d t p, vis.kind = some k → vis.duration = some d → vis.tariff_type = some t →
    vis.price = some p → calc_price k d (t == "discount") = some p

def wizInv (cfg : WizConfig) : Prop :=
  (cfg.state = WizState.confirmVisit → draftCoherent cfg.visit)
  ∧ ∀ v ∈ cfg.committed,
      calc_price v.kind v.duration (v.tariff_type == "discount") = some v.price

theorem wizStep_inv (cfg : WizConfig) (e : WizEvent) (h : wizInv cfg) :
    wizInv (wizStep cfg e) := by
  obtain ⟨cust, stt, vis, log⟩ := cfg
  obtain ⟨h1, h2⟩ := h
  cases stt <;> cases e <;>
    simp only [wizStep, wizInv] <;>
    first
      | exact ⟨h1, h2⟩
      | exact ⟨fun hc => WizState.noConfusion hc, h2⟩
      | exact ⟨fun hc => hc.elim, h2⟩
      | exact ⟨fun _ => h1 rfl, h2⟩
      | ((repeat' split) <;>
          first
            | exact ⟨h1, h2⟩
            | exact ⟨fun hc => WizState.noConfusion hc, h2⟩
            | exact ⟨fun hc => hc.elim, h2⟩
            | exact ⟨fun _ => h1 rfl, h2⟩
            | skip)
  case confirmVisit.confirmYesE.h_1.h_1 =>
    rename_i cid0 dt0 k0 d0 p0 t0 hcid hdate hkind hdur hprice htar xo c0 halk
    constructor
    · intro hc
      cases hc
    · intro w hw
      rcases List.mem_append.mp hw with hw | hw
      · exact h2 w hw
      · rcases List.mem_singleton.mp hw with rfl
        exact h1 rfl k0 d0 t0 p0 hkind hdur htar hprice
  case selectTariffType.tariffPickE.h_1.h_1.h_1 =>
    rename_i t0 x5 x4 x3 cida k0 d0 hcid hkind hdur xp p0 hcp x1 x0 nm0 dt0 hname hdate
    constructor
    · intro _
      intro k d tt p hk hd ht hp
      have hk2 : some k0 = some k := by rw [← hkind]; exact hk
      have hd2 : some d0 = some d := by rw [← hdur]; exact hd
      have ht2 : some t0 = some tt := ht
      have hp2 : some p0 = some p := hp
      cases hk2
      cases hd2
      cases ht2
      cases hp2
      exact hcp
    · intro w hw
      exact h2 w hw

theorem foldl_wizStep_inv (events : List WizEvent) : ∀ cfg, wizInv cfg →
    wizInv (events.foldl wizStep cfg) := by
  induction events with
  | nil => intro cfg h; exact h
  | cons e rest ih => intro cfg h; exact ih _ (wizStep_inv cfg e h)

theorem wizRun_inv (customers : Ledger) (events : List WizEvent) :
    wizInv (wizRun customers events) :=
  foldl_wizStep_inv events (initWizConfig customers)
    ⟨fun hc => WizState.noConfusion hc, fun v hv => absurd hv (List.not_mem_nil v)⟩

/-- The scenario-D event sequence: reach CONFIRM with the discount
tariff, go back, pick the standard tariff, confirm. -/
def scenarioD : List WizEvent :=
  [.selectCustomerE "1", .addVisitE, .datePickE "2025-03-10", .kindPickE "exact",
   .durationPickE "4", .tariffPickE "discount", .confirmBackE, .tariffPickE "standard",
   .confirmYesE]

/-- C4: the confirm transition is the only wizard transition that appends
a VisitRecord — every visit present after any other step was already
present before it; every committed record's price equals the tariff-table
price for its own kind, duration and tariff type (the draft's values at
confirm time); and in scenario D the committed record carries the second
tariff choice with the price recomputed from it. -/
theorem C4_confirm_only_commit :
    (∀ cfg e cid' c', alookup (wizStep cfg e).customers cid' = some c' →
        ∀ v ∈ c'.visits,
          (∃ c0, alookup cfg.customers cid' = some c0 ∧ v ∈ c0.visits)
          ∨ (cfg.state = WizState.confirmVisit ∧ e = WizEvent.confirmYesE))
    ∧ (∀ customers events, ∀ v ∈ (wizRun customers events).committed,
        calc_price v.kind v.duration (v.tariff_type == "discount") = some v.price)
    ∧ (wizRun [("1", freshCustomer "ACME")] scenarioD).committed
        = [⟨"2025-03-10", "exact", "4", 25000, "standard"⟩] := by
  refine ⟨wizStep_no_new_visit, ?_, by decide⟩
  intro customers events v hv
  exact (wizRun_inv customers events).2 v hv

theorem C4_confirm_only_commit_witness :
    calc_price "exact" "4" ("standard" == "discount") = some 25000
    ∧ ∀ v ∈ (freshCustomer "ACME").visits,
        (∃ c0, alookup [("1", freshCustomer "ACME")] "1" = some c0 ∧ v ∈ c0.visits)
        ∨ ((initWizConfig [("1", freshCustomer "ACME")]).state = WizState.confirmVisit
            ∧ WizEvent.cancelE = WizEvent.confirmYesE) :=
  ⟨C4_confirm_only_commit.2.1 [("1", freshCustomer "ACME")] scenarioD
      ⟨"2025-03-10", "exact", "4", 25000, "standard"⟩ (by decide),
   C4_confirm_only_commit.1 (initWizConfig [("1", freshCustomer "ACME")]) WizEvent.cancelE
      "1" (freshCustomer "ACME") (by decide)⟩
